import Mathlib

/-!
Order book of the `trade` matching engine.

A shallow embedding of `orderbook/orderbook.go` and `orderbook/red_black_tree.go`
together with the parts of `dao/order.go` and `dao/trade.go` they use.

* `decimal.Decimal` values are exact; they are modelled by rational numbers, on
  which `Add`, `Sub`, `Min` and the comparisons are the exact operations.
* A Go panic (a failed type assertion, a nil dereference) is the result `none`.
* The order book keeps its two sides in `redblacktree.Tree` values of the `gods`
  library, created with `rbt.NewWith(PriceComparator)`.  The tree is modelled as
  a binary search tree whose every descent calls the comparator on the searched
  key and the key of the node it stands on; colours and rotations change neither
  the in-order sequence nor the first comparison (against the root) and are left
  out.
-/

namespace Orderbook

/-- The type `decimal.Decimal`. -/
abbrev Decimal := ℚ

/-- The constant `dao.OrderTypeLimit`. -/
def OrderTypeLimit : Int := 1
/-- The constant `dao.OrderTypeMarket`. -/
def OrderTypeMarket : Int := 2
/-- The constant `dao.OrderSideBuy`. -/
def OrderSideBuy : Int := 1
/-- The constant `dao.OrderSideSell`. -/
def OrderSideSell : Int := 2
/-- The constant `dao.OrderStatusInit`. -/
def OrderStatusInit : Int := 1
/-- The constant `dao.OrderStatusPartial`. -/
def OrderStatusPartial : Int := 2
/-- The constant `dao.OrderStatusFilled`. -/
def OrderStatusFilled : Int := 3
/-- The constant `dao.OrderStatusCancelled`. -/
def OrderStatusCancelled : Int := 4

/-- The struct `dao.Order` (the fields the book reads or writes; `Typ` is the Go
field `Type`, and `OrderType`, `OrderSide`, `OrderStatus` are Go `int` types). -/
structure Order where
  Id : Int
  Price : Decimal
  Amount : Decimal
  Filled : Decimal
  Typ : Int
  Side : Int
  Status : Int
  deriving DecidableEq

/-- The struct `dao.Trade` as `Match` fills it. -/
structure Trade where
  TakerOrderId : Int
  MakerOrderId : Int
  Price : Decimal
  Amount : Decimal
  deriving DecidableEq

/-- A Go `interface{}` value used as a tree key: the book passes `order.Id`
(an `int`), the comparator expects a `*dao.Order`. -/
inductive Key where
  | int (i : Int)
  | order (o : Order)
  deriving DecidableEq

/-- The function `PriceComparator`: both arguments go through the type assertion
`.(*dao.Order)`, first `a`, then `b`; an assertion on an `int` panics. -/
def PriceComparator (a b : Key) : Option Int :=
  match a with
  | Key.int _ => none
  | Key.order aOrder =>
    match b with
    | Key.int _ => none
    | Key.order bOrder =>
      if aOrder.Price > bOrder.Price then some 1
      else if aOrder.Price < bOrder.Price then some (-1)
      else some 0

/-- The nodes of a `redblacktree.Tree`. -/
inductive Tree where
  | nil
  | node (left : Tree) (key : Key) (value : Order) (right : Tree)
  deriving DecidableEq

namespace Tree

/-- The method `Tree.Size`. -/
def Size : Tree → Nat
  | nil => 0
  | node l _ _ r => l.Size + 1 + r.Size

/-- The method `Tree.Keys`: the keys in-order. -/
def Keys : Tree → List Key
  | nil => []
  | node l k _ r => l.Keys ++ k :: r.Keys

/-- The method `Tree.Values`: the values in-order, the sequence an iterator walks
with `Next` (and backwards with `Prev`). -/
def Values : Tree → List Order
  | nil => []
  | node l _ v r => l.Values ++ v :: r.Values

/-- A write through the `*dao.Order` held by the in-order node number `i`. -/
def setValue : Tree → Nat → Order → Tree
  | nil, _, _ => nil
  | node l k v r, i, o =>
    if i < l.Size then node (l.setValue i o) k v r
    else if i = l.Size then node l k o r
    else node l k v (r.setValue (i - l.Size - 1) o)

/-- The descent of `Tree.Put` below a non-nil root. -/
def insert (cmp : Key → Key → Option Int) (key : Key) (value : Order) : Tree → Option Tree
  | nil => some (node nil key value nil)
  | node l k v r =>
    match cmp key k with
    | none => none
    | some c =>
      if c = 0 then some (node l key value r)
      else if c < 0 then (insert cmp key value l).map (fun l1 => node l1 k v r)
      else (insert cmp key value r).map (fun r1 => node l k v r1)

/-- The method `Tree.Put`: on an empty tree the key is first checked against the
comparator (`tree.Comparator(key, key)`), otherwise the tree is descended. -/
def Put (cmp : Key → Key → Option Int) (key : Key) (value : Order) (t : Tree) : Option Tree :=
  match t with
  | nil => (cmp key key).map (fun _ => node nil key value nil)
  | node l k v r => insert cmp key value (node l k v r)

/-- The rightmost node of a non-empty tree and the tree without it. -/
def popMax : Tree → Key → Order → Tree → Key × Order × Tree
  | l, k, v, nil => (k, v, l)
  | l, k, v, node rl rk rv rr =>
    let (mk, mv, r1) := popMax rl rk rv rr
    (mk, mv, node l k v r1)

/-- The method `Tree.Remove`: `lookup` descends with the comparator; a key that
is not found leaves the tree as it is; a found node with two children takes the
key and value of its in-order predecessor, which is unlinked instead. -/
def Remove (cmp : Key → Key → Option Int) (key : Key) : Tree → Option Tree
  | nil => some nil
  | node l k v r =>
    match cmp key k with
    | none => none
    | some c =>
      if c = 0 then
        match l, r with
        | nil, _ => some r
        | node ll lk lv lr, nil => some (node ll lk lv lr)
        | node ll lk lv lr, node rl rk rv rr =>
          let (pk, pv, l1) := popMax ll lk lv lr
          some (node l1 pk pv (node rl rk rv rr))
      else if c < 0 then (Remove cmp key l).map (fun l1 => node l1 k v r)
      else (Remove cmp key r).map (fun r1 => node l k v r1)

end Tree

/-- The struct `OrderBook` (without its mutex). -/
structure OrderBook where
  bids : Tree
  asks : Tree
  deriving DecidableEq

/-- The book `NewOrderBook` creates for a symbol it has not seen. -/
def NewOrderBook : OrderBook := ⟨Tree.nil, Tree.nil⟩

/-- The method `OrderBook.AddOrder`. -/
def AddOrder (ob : OrderBook) (order : Order) : Option OrderBook :=
  if order.Side = OrderSideBuy then
    (ob.bids.Put PriceComparator (Key.int order.Id) order).map (fun t => { ob with bids := t })
  else if order.Side = OrderSideSell then
    (ob.asks.Put PriceComparator (Key.int order.Id) order).map (fun t => { ob with asks := t })
  else some ob

/-- The variables of the loop of `OrderBook.Match`. -/
structure MatchState where
  tree : Tree
  order : Order
  remaining : Decimal
  trades : List Trade
  deriving DecidableEq

/-- The loop of `OrderBook.Match`; `its` lists the in-order positions the
iterator still has to visit, in the order it visits them. -/
def matchLoop : List Nat → MatchState → Option MatchState
  | [], st => some st
  | i :: its, st =>
    if ¬ (0 < st.remaining) then some st
    else
      match st.tree.Values.get? i with
      | none => some st
      | some oppositeOrder =>
        if st.order.Typ = OrderTypeLimit ∧
            ((st.order.Side = OrderSideBuy ∧ st.order.Price < oppositeOrder.Price) ∨
             (st.order.Side = OrderSideSell ∧ st.order.Price > oppositeOrder.Price)) then
          some st
        else
          let available := oppositeOrder.Amount - oppositeOrder.Filled
          let fillAmount := min st.remaining available
          let trade : Trade :=
            { TakerOrderId := st.order.Id, MakerOrderId := oppositeOrder.Id,
              Price := oppositeOrder.Price, Amount := fillAmount }
          let maker : Order := { oppositeOrder with Filled := oppositeOrder.Filled + fillAmount }
          let taker : Order := { st.order with Filled := st.order.Filled + fillAmount }
          let tree1 := st.tree.setValue i maker
          if maker.Filled ≥ maker.Amount then
            (tree1.Remove PriceComparator (Key.int maker.Id)).bind (fun tree2 =>
              matchLoop its
                { tree := tree2, order := taker, remaining := st.remaining - fillAmount,
                  trades := st.trades ++ [trade] })
          else
            matchLoop its
              { tree := tree1, order := taker, remaining := st.remaining - fillAmount,
                trades := st.trades ++ [trade] }

/-- The method `OrderBook.Match`: the book after the call, the taker after the
call and the trades returned.  A taker whose side is neither Buy nor Sell leaves
`oppositeTree` nil, and the first `it.Value()` dereferences a nil node. -/
def Match (ob : OrderBook) (order : Order) : Option (OrderBook × Order × List Trade) :=
  if order.Side = OrderSideBuy then
    (matchLoop (List.range ob.asks.Size) ⟨ob.asks, order, order.Amount, []⟩).map
      (fun st => ({ ob with asks := st.tree }, st.order, st.trades))
  else if order.Side = OrderSideSell then
    (matchLoop (List.range ob.bids.Size).reverse ⟨ob.bids, order, order.Amount, []⟩).map
      (fun st => ({ ob with bids := st.tree }, st.order, st.trades))
  else if 0 < order.Amount then none
  else some (ob, order, [])

/-- The method `OrderBook.RemoveOrder`: the book after the call and the value
returned. -/
def RemoveOrder (ob : OrderBook) (orderId : Int) (side : Int) : Option (OrderBook × Bool) :=
  if side = OrderSideBuy then
    (ob.bids.Remove PriceComparator (Key.int orderId)).map (fun t => ({ ob with bids := t }, true))
  else if side = OrderSideSell then
    (ob.asks.Remove PriceComparator (Key.int orderId)).map (fun t => ({ ob with asks := t }, true))
  else some (ob, true)

/-- The variable `oppositeTree` of `Match`: the asks for a Buy taker, the bids
for a Sell taker, and a nil tree otherwise. -/
def oppositeTree (ob : OrderBook) (order : Order) : Tree :=
  if order.Side = OrderSideBuy then ob.asks
  else if order.Side = OrderSideSell then ob.bids
  else Tree.nil

/-- The resting orders on the side opposite the taker, in the order the iterator
of `Match` visits them: the asks forwards (`Begin`, `Next`) for a Buy taker, the
bids backwards (`End`, `Prev`) for a Sell taker. -/
def oppositeOrders (ob : OrderBook) (order : Order) : List Order :=
  if order.Side = OrderSideBuy then ob.asks.Values
  else if order.Side = OrderSideSell then ob.bids.Values.reverse
  else []

/-- The type assertion `key.(*dao.Order)` of `Bids` and `Asks`, key by key, in
the order of `Keys`; it panics at the first key that is an `int`. -/
def ordersOfKeys : List Key → Option (List Order)
  | [] => some []
  | Key.order o :: keys => (ordersOfKeys keys).map (fun orders => o :: orders)
  | Key.int _ :: _ => none

/-- The method `OrderBook.Bids`. -/
def Bids (ob : OrderBook) : Option (List Order) := ordersOfKeys ob.bids.Keys

/-- The method `OrderBook.Asks`. -/
def Asks (ob : OrderBook) : Option (List Order) := ordersOfKeys ob.asks.Keys

/-! Matching engine (`matchingengine/matching_engine.go`).  The writes to the
order and trade tables that follow the in-memory update are left out: they do
not touch the book or the order. -/

/-- The method `MatchingEngine.handleLimitOrder` on the engine's book: the book,
the order and the trades after the call. -/
def handleLimitOrder (ob : OrderBook) (order : Order) :
    Option (OrderBook × Order × List Trade) :=
  match Match ob order with
  | none => none
  | some (ob1, order1, trades) =>
    if order1.Filled < order1.Amount then
      (AddOrder ob1 { order1 with Status := OrderStatusPartial }).map
        (fun ob2 => (ob2, { order1 with Status := OrderStatusPartial }, trades))
    else some (ob1, { order1 with Status := OrderStatusFilled }, trades)

/-- The method `MatchingEngine.handleMarketOrder` on the engine's book. -/
def handleMarketOrder (ob : OrderBook) (order : Order) :
    Option (OrderBook × Order × List Trade) :=
  match Match ob order with
  | none => none
  | some (ob1, order1, trades) =>
    if order1.Filled < order1.Amount then
      some (ob1, { order1 with Status := OrderStatusPartial }, trades)
    else some (ob1, { order1 with Status := OrderStatusFilled }, trades)

/-- The method `MatchingEngine.processOrder`. -/
def processOrder (ob : OrderBook) (order : Order) : Option (OrderBook × Order × List Trade) :=
  if order.Typ = OrderTypeLimit then handleLimitOrder ob order
  else if order.Typ = OrderTypeMarket then handleMarketOrder ob order
  else some (ob, order, [])

/-- The struct `MatchingEngine`.  Its `*OrderBook` is the entry of `orderBooks`
it was created with, named here by the key of that entry; `stopChanClosed` says
that `stopChan` has been closed and `workerRunning` that the goroutine started
by `Start` has not returned yet. -/
structure MatchingEngine where
  orderBook : String
  symbol : String
  stopChanClosed : Bool
  workerRunning : Bool
  deriving DecidableEq

/-- The package variables `orderBooks` and `matchingEngines`, Go maps kept as
association lists. -/
structure Registry where
  orderBooks : List (String × OrderBook)
  matchingEngines : List (String × MatchingEngine)
  deriving DecidableEq

/-- The function `orderbook.NewOrderBook` on the package variable `orderBooks`:
the entry for the symbol is created if it is missing. -/
def Registry.NewOrderBook (reg : Registry) (symbol : String) : Registry :=
  match reg.orderBooks.lookup symbol with
  | some _ => reg
  | none => { reg with orderBooks := (symbol, Orderbook.NewOrderBook) :: reg.orderBooks }

/-- The function `NewMatchingEngine`: under the write lock, the engine of the
symbol is created and started if the map has none, and the map entry is
returned. -/
def NewMatchingEngine (reg : Registry) (symbol : String) : Registry × MatchingEngine :=
  match reg.matchingEngines.lookup symbol with
  | some engine => (reg, engine)
  | none =>
    ({ reg.NewOrderBook symbol with
        matchingEngines := (symbol, ⟨symbol, symbol, false, true⟩) :: reg.matchingEngines },
     ⟨symbol, symbol, false, true⟩)

/-- The function `GetMatchingEngine`: the map is read under the read lock, and
`NewMatchingEngine` is called if the symbol has no entry. -/
def GetMatchingEngine (reg : Registry) (symbol : String) : Registry × MatchingEngine :=
  match reg.matchingEngines.lookup symbol with
  | some engine => (reg, engine)
  | none => NewMatchingEngine reg symbol

/-- The method `MatchingEngine.Stop`: `close(e.stopChan)` panics on a channel
that is closed already; `e.wg.Wait()` returns once the worker has returned. -/
def MatchingEngine.Stop (e : MatchingEngine) : Option MatchingEngine :=
  if e.stopChanClosed then none
  else some { e with stopChanClosed := true, workerRunning := false }

/-- The loop of `MatchingEngineClose` over the entries of `matchingEngines`. -/
def stopAll : List (String × MatchingEngine) → Option (List (String × MatchingEngine))
  | [] => some []
  | (symbol, engine) :: rest =>
    match engine.Stop with
    | none => none
    | some stopped => (stopAll rest).map (fun rest1 => (symbol, stopped) :: rest1)

/-- The function `MatchingEngineClose`. -/
def MatchingEngineClose (reg : Registry) : Option Registry :=
  (stopAll reg.matchingEngines).map (fun engines => { reg with matchingEngines := engines })

/-! Ingress (`controller/order_controller.go`). -/

/-- The struct `SubmitOrderReq` after decoding (`Typ` is the Go field `Type`). -/
structure SubmitOrderReq where
  UserId : Int
  Symbol : String
  Price : Decimal
  Amount : Decimal
  Typ : Int
  Side : Int
  deriving DecidableEq

/-- The validation of `c.ShouldBind(req)` on a decoded request: the tag
`binding:"required"` stands on `UserId` and `Symbol` only and rejects the zero
value of the field. -/
def ShouldBind (req : SubmitOrderReq) : Bool :=
  decide (req.UserId ≠ 0) && decide (req.Symbol ≠ "")

/-- What a call of `OrderController.SubmitOrder` has done: the HTTP status of
the answer, the order written by `CreateOrder`, and the symbol and order given
to `GetMatchingEngine(order.Symbol).SubmitOrder(order)`. -/
structure SubmitOutcome where
  httpCode : Nat
  persisted : Option Order
  handed : Option (String × Order)
  deriving DecidableEq

/-- The method `OrderController.SubmitOrder`.  `createOrder` is the order table:
`none` when `CreateOrder` fails, otherwise the id it assigns.  The struct literal
sets neither `Filled` nor `Status`, which keep their zero values. -/
def SubmitOrder (createOrder : Order → Option Int) (req : SubmitOrderReq) : SubmitOutcome :=
  if ShouldBind req = false then ⟨400, none, none⟩
  else
    match createOrder ⟨0, req.Price, req.Amount, 0, req.Typ, req.Side, 0⟩ with
    | none => ⟨500, none, none⟩
    | some id =>
      ⟨200, some ⟨id, req.Price, req.Amount, 0, req.Typ, req.Side, 0⟩,
        some (req.Symbol, ⟨id, req.Price, req.Amount, 0, req.Typ, req.Side, 0⟩)⟩

/-! Scenarios -/

/-- A resting ask with id 1, price 10 and amount 2. -/
def betterAsk : Order := ⟨1, 10, 2, 0, OrderTypeLimit, OrderSideSell, OrderStatusPartial⟩
/-- A resting ask with id 2, price 11 and amount 2. -/
def worseAsk : Order := ⟨2, 11, 2, 0, OrderTypeLimit, OrderSideSell, OrderStatusPartial⟩
/-- A book state whose asks hold `betterAsk` before `worseAsk`. -/
def twoAsksBook : OrderBook :=
  ⟨Tree.nil, Tree.node Tree.nil (Key.int 1) betterAsk (Tree.node Tree.nil (Key.int 2) worseAsk Tree.nil)⟩
/-- A Buy Market taker for 3. -/
def buyThree : Order := ⟨3, 0, 3, 0, OrderTypeMarket, OrderSideBuy, OrderStatusInit⟩

/-- Scenario S5: the ask with id 50. -/
def s5First : Order := ⟨50, 50, 3, 0, OrderTypeLimit, OrderSideSell, OrderStatusPartial⟩
/-- Scenario S5: the ask with id 51. -/
def s5Second : Order := ⟨51, 50, 3, 0, OrderTypeLimit, OrderSideSell, OrderStatusPartial⟩
/-- Scenario S5: the taker with id 52. -/
def s5Taker : Order := ⟨52, 50, 4, 0, OrderTypeLimit, OrderSideBuy, OrderStatusInit⟩
/-- Scenario S5: a book state in which the first ask rests. -/
def s5BookFirst : OrderBook := ⟨Tree.nil, Tree.node Tree.nil (Key.int 50) s5First Tree.nil⟩
/-- Scenario S5: a book state in which both asks rest, id 50 before id 51. -/
def s5Book : OrderBook :=
  ⟨Tree.nil, Tree.node Tree.nil (Key.int 50) s5First (Tree.node Tree.nil (Key.int 51) s5Second Tree.nil)⟩

/-- Scenario S4: the ask with id 30, 2 at 10. -/
def s4Ask30 : Order := ⟨30, 10, 2, 0, OrderTypeLimit, OrderSideSell, OrderStatusPartial⟩
/-- Scenario S4: the ask with id 31, 2 at 11. -/
def s4Ask31 : Order := ⟨31, 11, 2, 0, OrderTypeLimit, OrderSideSell, OrderStatusPartial⟩
/-- Scenario S4: the ask with id 32, 10 at 12. -/
def s4Ask32 : Order := ⟨32, 12, 10, 0, OrderTypeLimit, OrderSideSell, OrderStatusPartial⟩
/-- Scenario S4: a book state with the asks 2@10, 2@11 and 10@12. -/
def s4Book : OrderBook :=
  ⟨Tree.nil,
   Tree.node (Tree.node Tree.nil (Key.int 30) s4Ask30 Tree.nil) (Key.int 31) s4Ask31
     (Tree.node Tree.nil (Key.int 32) s4Ask32 Tree.nil)⟩
/-- Scenario S4: the Buy Market taker with id 40 for 5. -/
def s4Taker : Order := ⟨40, 0, 5, 0, OrderTypeMarket, OrderSideBuy, OrderStatusInit⟩

/-- Scenario S6: the bid with id 20 at 101, with 3 of 5 filled. -/
def s6Bid : Order := ⟨20, 101, 5, 3, OrderTypeLimit, OrderSideBuy, OrderStatusPartial⟩
/-- Scenario S6: a book state in which the bid with id 20 rests. -/
def s6Book : OrderBook := ⟨Tree.node Tree.nil (Key.int 20) s6Bid Tree.nil, Tree.nil⟩

/-- Scenario S1: the Buy Limit order with id 1, price 100 and amount 5. -/
def s1Order : Order := ⟨1, 100, 5, 0, OrderTypeLimit, OrderSideBuy, OrderStatusPartial⟩
/-- A book state in which a bid with id 9 rests at 99. -/
def oneBidBook : OrderBook :=
  ⟨Tree.node Tree.nil (Key.int 9) ⟨9, 99, 1, 0, OrderTypeLimit, OrderSideBuy, OrderStatusPartial⟩ Tree.nil,
   Tree.nil⟩

/-- A book state with one ask, 10 at price 100. -/
def askTenBook : OrderBook :=
  ⟨Tree.nil, Tree.node Tree.nil (Key.int 7) ⟨7, 100, 10, 0, OrderTypeLimit, OrderSideSell, OrderStatusPartial⟩ Tree.nil⟩
/-- The book `askTenBook` after 4 of its ask has been filled. -/
def askTenBookFour : OrderBook :=
  ⟨Tree.nil, Tree.node Tree.nil (Key.int 7) ⟨7, 100, 10, 4, OrderTypeLimit, OrderSideSell, OrderStatusPartial⟩ Tree.nil⟩
/-- A Buy Limit taker for 4 at 101. -/
def buyFourLimit : Order := ⟨8, 101, 4, 0, OrderTypeLimit, OrderSideBuy, OrderStatusInit⟩
/-- A Buy Market taker for 4. -/
def buyFourMarket : Order := ⟨8, 0, 4, 0, OrderTypeMarket, OrderSideBuy, OrderStatusInit⟩

/-- A book state with two bids, 6 at 98 (1 filled) and 6 at 99 (2 filled). -/
def twoBidsBook : OrderBook :=
  ⟨Tree.node (Tree.node Tree.nil (Key.int 11) ⟨11, 98, 6, 1, OrderTypeLimit, OrderSideBuy, OrderStatusPartial⟩ Tree.nil)
     (Key.int 12) ⟨12, 99, 6, 2, OrderTypeLimit, OrderSideBuy, OrderStatusPartial⟩ Tree.nil,
   Tree.nil⟩
/-- The book `twoBidsBook` after 3 more of its bid at 99 has been filled. -/
def twoBidsBookThree : OrderBook :=
  ⟨Tree.node (Tree.node Tree.nil (Key.int 11) ⟨11, 98, 6, 1, OrderTypeLimit, OrderSideBuy, OrderStatusPartial⟩ Tree.nil)
     (Key.int 12) ⟨12, 99, 6, 5, OrderTypeLimit, OrderSideBuy, OrderStatusPartial⟩ Tree.nil,
   Tree.nil⟩
/-- A Sell Limit taker for 3 at 98. -/
def sellThree : Order := ⟨13, 98, 3, 0, OrderTypeLimit, OrderSideSell, OrderStatusInit⟩

/-- A Buy Market taker of amount 5 that already carries filled = 3. -/
def halfFilledTaker : Order := ⟨14, 0, 5, 3, OrderTypeMarket, OrderSideBuy, OrderStatusPartial⟩


/-- Scenario S1: the Buy Limit order with id 1 as it is handed to the engine. -/
def s1Submitted : Order := ⟨1, 100, 5, 0, OrderTypeLimit, OrderSideBuy, OrderStatusInit⟩

/-- Scenario S2: a book state in which the bid with id 1, 5 at 100, rests. -/
def s2Book : OrderBook :=
  ⟨Tree.node Tree.nil (Key.int 1) ⟨1, 100, 5, 0, OrderTypeLimit, OrderSideBuy, OrderStatusPartial⟩ Tree.nil,
   Tree.nil⟩
/-- Scenario S2: the Sell Limit taker with id 2, 5 at 100. -/
def s2Taker : Order := ⟨2, 100, 5, 0, OrderTypeLimit, OrderSideSell, OrderStatusInit⟩

/-- Scenario S3: a book state with the asks id 10, 3 at 101, and id 11, 4 at 102. -/
def s3Book : OrderBook :=
  ⟨Tree.nil,
   Tree.node Tree.nil (Key.int 10) ⟨10, 101, 3, 0, OrderTypeLimit, OrderSideSell, OrderStatusPartial⟩
     (Tree.node Tree.nil (Key.int 11) ⟨11, 102, 4, 0, OrderTypeLimit, OrderSideSell, OrderStatusPartial⟩
       Tree.nil)⟩
/-- Scenario S3: the Buy Limit taker with id 20, 5 at 101. -/
def s3Taker : Order := ⟨20, 101, 5, 0, OrderTypeLimit, OrderSideBuy, OrderStatusInit⟩

/-- A Buy Market order of amount -1, as the ingress hands it to the engine. -/
def negativeMarket : Order := ⟨16, 0, -1, 0, OrderTypeMarket, OrderSideBuy, 0⟩

/-- A Buy Market taker of amount 5 whose filled is 5 already. -/
def fullTaker : Order := ⟨15, 0, 5, 5, OrderTypeMarket, OrderSideBuy, OrderStatusFilled⟩

/-- The registry of a process that has created no engine and no book. -/
def emptyRegistry : Registry := ⟨[], []⟩
/-- A registry with a running engine for one symbol. -/
def oneEngineRegistry : Registry :=
  ⟨[("BTCUSDT", NewOrderBook)], [("BTCUSDT", ⟨"BTCUSDT", "BTCUSDT", false, true⟩)]⟩
/-- The registry `oneEngineRegistry` after its engine has been stopped. -/
def oneEngineStopped : Registry :=
  ⟨[("BTCUSDT", NewOrderBook)], [("BTCUSDT", ⟨"BTCUSDT", "BTCUSDT", true, false⟩)]⟩

/-- A submit request that is within the schema. -/
def validReq : SubmitOrderReq := ⟨1, "BTCUSDT", 100, 5, 1, 1⟩
/-- A submit request with amount 0. -/
def zeroAmountReq : SubmitOrderReq := ⟨1, "BTCUSDT", 100, 0, 1, 1⟩
/-- A submit request with user_id 0. -/
def noUserReq : SubmitOrderReq := ⟨0, "BTCUSDT", 100, 5, 1, 1⟩
/-- An order table that assigns the id 1. -/
def createWithIdOne : Order → Option Int := fun _ => some 1

/-- The book is not crossed: every resting bid price is strictly below every
resting ask price. -/
def uncrossed (ob : OrderBook) : Prop :=
  ∀ bid ∈ ob.bids.Values, ∀ ask ∈ ob.asks.Values, bid.Price < ask.Price

/-- A book state with a bid of 1 at 99 and an ask of 10 at 100. -/
def spreadBook : OrderBook :=
  ⟨Tree.node Tree.nil (Key.int 9) ⟨9, 99, 1, 0, OrderTypeLimit, OrderSideBuy, OrderStatusPartial⟩ Tree.nil,
   Tree.node Tree.nil (Key.int 7) ⟨7, 100, 10, 0, OrderTypeLimit, OrderSideSell, OrderStatusPartial⟩ Tree.nil⟩
/-- The book `spreadBook` after 4 of its ask has been filled. -/
def spreadBookFour : OrderBook :=
  ⟨Tree.node Tree.nil (Key.int 9) ⟨9, 99, 1, 0, OrderTypeLimit, OrderSideBuy, OrderStatusPartial⟩ Tree.nil,
   Tree.node Tree.nil (Key.int 7) ⟨7, 100, 10, 4, OrderTypeLimit, OrderSideSell, OrderStatusPartial⟩ Tree.nil⟩

/-- A Buy Limit order for 2 at 99, below the ask of `spreadBook`. -/
def buyTwoBelow : Order := ⟨21, 99, 2, 0, OrderTypeLimit, OrderSideBuy, OrderStatusInit⟩
/-- A Buy Limit order for 12 at 100, more than the ask of `spreadBook` holds. -/
def buyTwelveAcross : Order := ⟨22, 100, 12, 0, OrderTypeLimit, OrderSideBuy, OrderStatusInit⟩

/-! The tree under `PriceComparator` and `int` keys -/

theorem PriceComparator_int (i : Int) (b : Key) : PriceComparator (Key.int i) b = none := rfl

namespace Tree

theorem Values_length (t : Tree) : t.Values.length = t.Size := by
  induction t with
  | nil => rfl
  | node l k v r ihl ihr => simp [Values, Size, ihl, ihr]; omega

theorem Values_setValue (t : Tree) (i : Nat) (o : Order) :
    (t.setValue i o).Values = t.Values.set i o := by
  induction t generalizing i with
  | nil => simp [setValue, Values]
  | node l k v r ihl ihr =>
    unfold setValue
    split_ifs with h1 h2
    · simp [Values, ihl, List.set_append, Values_length, h1]
    · subst h2
      simp [Values, List.set_append, Values_length]
    · have h3 : i - l.Size = (i - l.Size - 1) + 1 := by omega
      simp only [Values, ihr, List.set_append, Values_length, h1, if_false]
      rw [h3, List.set_cons_succ]
      simp

theorem setValue_ne_nil {t : Tree} (h : t ≠ nil) (i : Nat) (o : Order) : t.setValue i o ≠ nil := by
  cases t with
  | nil => exact absurd rfl h
  | node l k v r =>
    unfold setValue
    split_ifs <;> simp

theorem ne_nil_of_get? {t : Tree} {i : Nat} {m : Order} (h : t.Values.get? i = some m) :
    t ≠ nil := by
  rintro rfl
  simp [Values] at h

theorem Remove_int (id : Int) {t : Tree} (h : t ≠ nil) :
    Remove PriceComparator (Key.int id) t = none := by
  cases t with
  | nil => exact absurd rfl h
  | node l k v r => simp [Remove, PriceComparator_int]

theorem Remove_int_nil (id : Int) : Remove PriceComparator (Key.int id) nil = some nil := rfl

theorem Put_int (id : Int) (v : Order) (t : Tree) :
    Put PriceComparator (Key.int id) v t = none := by
  cases t with
  | nil => simp [Put, PriceComparator_int]
  | node l k w r => simp [Put, insert, PriceComparator_int]

end Tree

/-! The loop of `Match` -/

theorem matchLoop_of_not_pos (its : List Nat) (st : MatchState) (h : ¬ 0 < st.remaining) :
    matchLoop its st = some st := by
  cases its with
  | nil => rfl
  | cons i its => simp [matchLoop, h]

/-- Whenever the loop returns, it has either changed nothing or made exactly one
fill, against the first node the iterator visits, and that fill used up the
taker's quantity without filling the maker completely. -/
theorem matchLoop_inv {its : List Nat} {st st1 : MatchState} (h : matchLoop its st = some st1) :
    (st1 = st ∧ (its = [] ∨ ¬ 0 < st.remaining ∨
        (∃ i rest, its = i :: rest ∧ st.tree.Values.get? i = none) ∨
        ∃ i rest m, its = i :: rest ∧ st.tree.Values.get? i = some m ∧
          st.order.Typ = OrderTypeLimit ∧
          ((st.order.Side = OrderSideBuy ∧ st.order.Price < m.Price) ∨
           (st.order.Side = OrderSideSell ∧ st.order.Price > m.Price)))) ∨
    ∃ i rest m, its = i :: rest ∧ st.tree.Values.get? i = some m ∧ 0 < st.remaining ∧
      ¬ (st.order.Typ = OrderTypeLimit ∧
          ((st.order.Side = OrderSideBuy ∧ st.order.Price < m.Price) ∨
           (st.order.Side = OrderSideSell ∧ st.order.Price > m.Price))) ∧
      st.remaining < m.Amount - m.Filled ∧
      st1 = { tree := st.tree.setValue i { m with Filled := m.Filled + st.remaining },
              order := { st.order with Filled := st.order.Filled + st.remaining },
              remaining := 0,
              trades := st.trades ++ [⟨st.order.Id, m.Id, m.Price, st.remaining⟩] } := by
  cases its with
  | nil =>
    left
    simp [matchLoop] at h
    exact ⟨h.symm, Or.inl rfl⟩
  | cons i rest =>
    by_cases hpos : 0 < st.remaining
    swap
    · left
      rw [matchLoop_of_not_pos _ _ hpos] at h
      exact ⟨(Option.some.inj h).symm, Or.inr (Or.inl hpos)⟩
    cases hget : st.tree.Values.get? i with
    | none =>
      left
      simp only [matchLoop, hpos, not_true_eq_false, if_false, hget] at h
      exact ⟨(Option.some.inj h).symm, Or.inr (Or.inr (Or.inl ⟨i, rest, rfl, hget⟩))⟩
    | some m =>
      by_cases hguard : st.order.Typ = OrderTypeLimit ∧
          ((st.order.Side = OrderSideBuy ∧ st.order.Price < m.Price) ∨
           (st.order.Side = OrderSideSell ∧ st.order.Price > m.Price))
      · left
        simp only [matchLoop, hpos, not_true_eq_false, if_false, hget, hguard, if_true] at h
        exact ⟨(Option.some.inj h).symm,
          Or.inr (Or.inr (Or.inr ⟨i, rest, m, rfl, hget, hguard⟩))⟩
      · right
        refine ⟨i, rest, m, rfl, hget, hpos, hguard, ?_⟩
        simp only [matchLoop, hpos, not_true_eq_false, if_false, hget, hguard] at h
        by_cases hfull : m.Filled + min st.remaining (m.Amount - m.Filled) ≥ m.Amount
        · rw [if_pos hfull,
            Tree.Remove_int _ (Tree.setValue_ne_nil (Tree.ne_nil_of_get? hget) _ _)] at h
          simp at h
        · rw [if_neg hfull] at h
          have hlt : st.remaining < m.Amount - m.Filled := by
            by_contra hge
            push_neg at hge
            apply hfull
            rw [min_eq_right hge]
            linarith
          have hmin : min st.remaining (m.Amount - m.Filled) = st.remaining :=
            min_eq_left hlt.le
          rw [hmin] at h
          rw [matchLoop_of_not_pos] at h
          · refine ⟨hlt, ?_⟩
            rw [← Option.some.inj h]
            simp
          · simp

theorem range_eq_cons {n i : Nat} {rest : List Nat} (h : List.range n = i :: rest) :
    i = 0 ∧ 0 < n := by
  cases n with
  | zero => simp at h
  | succ k =>
    rw [List.range_succ_eq_map] at h
    exact ⟨(List.cons.inj h).1.symm, Nat.succ_pos k⟩

theorem range_reverse_eq_cons {n i : Nat} {rest : List Nat}
    (h : (List.range n).reverse = i :: rest) : i = n - 1 ∧ 0 < n := by
  cases n with
  | zero => simp at h
  | succ k =>
    rw [List.range_succ, List.reverse_append] at h
    exact ⟨(List.cons.inj h).1.symm, Nat.succ_pos k⟩

theorem get?_zero_set {l : List Order} {m : Order} (h : l.get? 0 = some m) (x : Order) :
    ∃ rest, l = m :: rest ∧ l.set 0 x = x :: rest := by
  cases l with
  | nil => simp at h
  | cons a tl =>
    simp at h
    subst h
    exact ⟨tl, rfl, rfl⟩

theorem get?_last_set {l : List Order} {m : Order} (h : l.get? (l.length - 1) = some m)
    (x : Order) :
    ∃ rest, l.reverse = m :: rest ∧ (l.set (l.length - 1) x).reverse = x :: rest := by
  induction l using List.reverseRecOn with
  | nil => simp at h
  | append_singleton init a _ =>
    simp at h
    subst h
    refine ⟨init.reverse, by simp, ?_⟩
    simp [List.set_append]

/-- The inversion of `Match`: a call that returns has changed nothing, or has
made one fill of the whole taker amount against the first order the iterator
visits, which stays resting with room to spare. -/
theorem Match_inv {ob ob1 : OrderBook} {order order1 : Order} {trades : List Trade}
    (h : Match ob order = some (ob1, order1, trades)) :
    (ob1 = ob ∧ order1 = order ∧ trades = []) ∨
    ∃ m rest, oppositeOrders ob order = m :: rest ∧ 0 < order.Amount ∧
      ¬ (order.Typ = OrderTypeLimit ∧
          ((order.Side = OrderSideBuy ∧ order.Price < m.Price) ∨
           (order.Side = OrderSideSell ∧ order.Price > m.Price))) ∧
      order.Amount < m.Amount - m.Filled ∧
      order1 = { order with Filled := order.Filled + order.Amount } ∧
      trades = [⟨order.Id, m.Id, m.Price, order.Amount⟩] ∧
      oppositeOrders ob1 order = { m with Filled := m.Filled + order.Amount } :: rest ∧
      (order.Side = OrderSideBuy → ob1.bids = ob.bids) ∧
      (order.Side = OrderSideSell → ob1.asks = ob.asks) := by
  unfold Match at h
  by_cases hb : order.Side = OrderSideBuy
  · rw [if_pos hb] at h
    cases hl : matchLoop (List.range ob.asks.Size) ⟨ob.asks, order, order.Amount, []⟩ with
    | none => rw [hl] at h; simp at h
    | some st1 =>
      rw [hl] at h
      simp only [Option.map_some', Option.some.injEq, Prod.mk.injEq] at h
      obtain ⟨h1, h2, h3⟩ := h
      rcases matchLoop_inv hl with ⟨rfl, _⟩ | ⟨i, rest, m, hits, hget, hpos, hguard, hlt, rfl⟩
      · left
        exact ⟨h1.symm, h2.symm, h3.symm⟩
      · right
        obtain ⟨rfl, _⟩ := range_eq_cons hits
        obtain ⟨tl, htl, hset⟩ := get?_zero_set hget { m with Filled := m.Filled + order.Amount }
        simp only at htl hset hguard hlt hpos h1 h2 h3
        refine ⟨m, tl, ?_, hpos, hguard, hlt, h2.symm, ?_, ?_, ?_, ?_⟩
        · simp [oppositeOrders, hb, htl]
        · simp [← h3]
        · simp [oppositeOrders, hb, ← h1, Tree.Values_setValue, hset]
        · intro _; simp [← h1]
        · intro hs; rw [hb] at hs; simp [OrderSideBuy, OrderSideSell] at hs
  · rw [if_neg hb] at h
    by_cases hs : order.Side = OrderSideSell
    · rw [if_pos hs] at h
      cases hl : matchLoop (List.range ob.bids.Size).reverse ⟨ob.bids, order, order.Amount, []⟩ with
      | none => rw [hl] at h; simp at h
      | some st1 =>
        rw [hl] at h
        simp only [Option.map_some', Option.some.injEq, Prod.mk.injEq] at h
        obtain ⟨h1, h2, h3⟩ := h
        rcases matchLoop_inv hl with ⟨rfl, _⟩ | ⟨i, rest, m, hits, hget, hpos, hguard, hlt, rfl⟩
        · left
          exact ⟨h1.symm, h2.symm, h3.symm⟩
        · right
          obtain ⟨rfl, _⟩ := range_reverse_eq_cons hits
          simp only at hget
          rw [← Tree.Values_length] at hget
          obtain ⟨tl, htl, hset⟩ :=
            get?_last_set hget { m with Filled := m.Filled + order.Amount }
          simp only at htl hset hguard hlt hpos h1 h2 h3
          refine ⟨m, tl, ?_, hpos, hguard, hlt, h2.symm, ?_, ?_, ?_, ?_⟩
          · rw [oppositeOrders, if_neg hb, if_pos hs]; exact htl
          · simp [← h3]
          · rw [oppositeOrders, if_neg hb, if_pos hs, ← h1]
            simp only [Tree.Values_setValue]
            rw [← Tree.Values_length]
            exact hset
          · intro hb1; exact absurd hb1 hb
          · intro _; simp [← h1]
    · rw [if_neg hs] at h
      left
      split_ifs at h
      simp only [Option.some.injEq, Prod.mk.injEq] at h
      exact ⟨h.1.symm, h.2.1.symm, h.2.2.symm⟩

/-! Evaluations of the scenarios -/

theorem Match_askTen_limit :
    Match askTenBook buyFourLimit =
      some (askTenBookFour, { buyFourLimit with Filled := 4 }, [⟨8, 7, 100, 4⟩]) := by
  simp [Match, matchLoop, askTenBook, askTenBookFour, buyFourLimit, Tree.Size, Tree.Values,
    Tree.setValue, OrderSideBuy, OrderSideSell, OrderTypeLimit, OrderStatusPartial,
    OrderStatusInit]
  norm_num

theorem Match_askTen_market :
    Match askTenBook buyFourMarket =
      some (askTenBookFour, { buyFourMarket with Filled := 4 }, [⟨8, 7, 100, 4⟩]) := by
  simp [Match, matchLoop, askTenBook, askTenBookFour, buyFourMarket, Tree.Size, Tree.Values,
    Tree.setValue, OrderSideBuy, OrderSideSell, OrderTypeLimit, OrderTypeMarket,
    OrderStatusPartial, OrderStatusInit]
  norm_num

theorem Match_twoBids :
    Match twoBidsBook sellThree =
      some (twoBidsBookThree, { sellThree with Filled := 3 }, [⟨13, 12, 99, 3⟩]) := by
  simp [Match, matchLoop, twoBidsBook, twoBidsBookThree, sellThree, Tree.Size, Tree.Values,
    Tree.setValue, OrderSideBuy, OrderSideSell, OrderTypeLimit, OrderStatusPartial,
    OrderStatusInit, List.range_succ]
  norm_num

theorem Match_halfFilled :
    Match askTenBook halfFilledTaker =
      some (⟨Tree.nil, Tree.node Tree.nil (Key.int 7)
              ⟨7, 100, 10, 5, OrderTypeLimit, OrderSideSell, OrderStatusPartial⟩ Tree.nil⟩,
            { halfFilledTaker with Filled := 8 }, [⟨14, 7, 100, 5⟩]) := by
  simp [Match, matchLoop, askTenBook, halfFilledTaker, Tree.Size, Tree.Values,
    Tree.setValue, OrderSideBuy, OrderSideSell, OrderTypeLimit, OrderTypeMarket,
    OrderStatusPartial, OrderStatusInit]
  norm_num

theorem AddOrder_buy_sell (ob : OrderBook) (order : Order)
    (h : order.Side = OrderSideBuy ∨ order.Side = OrderSideSell) : AddOrder ob order = none := by
  unfold AddOrder
  rcases h with h | h
  · simp [h, Tree.Put_int]
  · simp [h, Tree.Put_int, OrderSideBuy, OrderSideSell]

theorem RemoveOrder_returns {ob ob1 : OrderBook} {orderId side : Int} {r : Bool}
    (h : RemoveOrder ob orderId side = some (ob1, r)) : r = true ∧ ob1 = ob := by
  unfold RemoveOrder at h
  split_ifs at h with h1 h2
  · cases hb : ob.bids with
    | nil =>
      rw [hb, Tree.Remove_int_nil] at h
      simp at h
      refine ⟨h.2, ?_⟩
      rw [← h.1, ← hb]
    | node l k v r1 =>
      rw [hb, Tree.Remove_int _ (by simp)] at h
      simp at h
  · cases hb : ob.asks with
    | nil =>
      rw [hb, Tree.Remove_int_nil] at h
      simp at h
      refine ⟨h.2, ?_⟩
      rw [← h.1, ← hb]
    | node l k v r1 =>
      rw [hb, Tree.Remove_int _ (by simp)] at h
      simp at h
  · simp at h
    exact ⟨h.2, h.1.symm⟩

theorem sum_filter_set_zero (id : Int) (m : Order) (x : Decimal) (rest : List Order) :
    (((({ m with Filled := m.Filled + x } : Order) :: rest).filter
        (fun o => o.Id = id)).map Order.Filled).sum =
      (((m :: rest).filter (fun o => o.Id = id)).map Order.Filled).sum +
        (if m.Id = id then x else 0) := by
  by_cases h : m.Id = id
  · simp [List.filter_cons, h]; ring
  · simp [List.filter_cons, h]

theorem forall₂_refl_of {R : Order → Order → Prop} :
    ∀ l : List Order, (∀ m ∈ l, R m m) → List.Forall₂ R l l
  | [], _ => List.Forall₂.nil
  | a :: l, h =>
    List.Forall₂.cons (h a (List.mem_cons_self a l))
      (forall₂_refl_of l (fun m hm => h m (List.mem_cons_of_mem a hm)))

/-! The claims -/

/-- C1 (better price first), evaluated on the code: two asks at 10 and 11 cannot
be rested with `AddOrder` (the call panics), and on a book state that holds the
better ask before the worse one a Buy Market for 3 makes `Match` panic at the
moment the better ask is filled to its full amount, so no trade list with a
trade against the worse ask after the better one is ever returned. -/
theorem better_price_first_unreachable :
    AddOrder NewOrderBook betterAsk = none ∧
    AddOrder ⟨Tree.nil, Tree.node Tree.nil (Key.int 1) betterAsk Tree.nil⟩ worseAsk = none ∧
    Match twoAsksBook buyThree = none := by
  refine ⟨AddOrder_buy_sell _ _ (Or.inr rfl), AddOrder_buy_sell _ _ (Or.inr rfl), ?_⟩
  simp [Match, matchLoop, twoAsksBook, buyThree, betterAsk, worseAsk, Tree.Size, Tree.Values,
    Tree.setValue, Tree.Remove, PriceComparator, OrderSideBuy, OrderSideSell, OrderTypeLimit,
    OrderTypeMarket, OrderStatusPartial, OrderStatusInit]
  norm_num

/-- C2 (time priority at equal price), evaluated on scenario S5: neither ask can
be added with `AddOrder` (on the new book and on a book state that already holds
id 50 the call panics), and on a book state that holds id 50 before id 51 the
Buy Limit for 4 makes `Match` panic when id 50 is filled, instead of returning
the trades {52,50,50,3} and {52,51,50,1}. -/
theorem time_priority_S5_panics :
    AddOrder NewOrderBook s5First = none ∧
    AddOrder s5BookFirst s5Second = none ∧
    Match s5Book s5Taker = none := by
  refine ⟨AddOrder_buy_sell _ _ (Or.inr rfl), AddOrder_buy_sell _ _ (Or.inr rfl), ?_⟩
  simp [Match, matchLoop, s5Book, s5Taker, s5First, s5Second, Tree.Size, Tree.Values,
    Tree.setValue, Tree.Remove, PriceComparator, OrderSideBuy, OrderSideSell, OrderTypeLimit,
    OrderStatusPartial, OrderStatusInit]
  norm_num

/-- C3 (limit price protection): whenever `Match` returns for a Limit taker,
every returned trade has a price at most the taker's price if the taker buys
and at least the taker's price if the taker sells. -/
theorem limit_price_protection (ob ob1 : OrderBook) (order order1 : Order) (trades : List Trade)
    (h : Match ob order = some (ob1, order1, trades)) (hlimit : order.Typ = OrderTypeLimit) :
    ∀ t ∈ trades, (order.Side = OrderSideBuy → t.Price ≤ order.Price) ∧
      (order.Side = OrderSideSell → order.Price ≤ t.Price) := by
  intro t ht
  rcases Match_inv h with ⟨_, _, rfl⟩ | ⟨m, rest, _, _, hguard, _, _, rfl, _⟩
  · simp at ht
  · simp only [List.mem_singleton] at ht
    subst ht
    constructor
    · intro hb
      by_contra hlt
      exact hguard ⟨hlimit, Or.inl ⟨hb, not_le.mp hlt⟩⟩
    · intro hs
      by_contra hlt
      exact hguard ⟨hlimit, Or.inr ⟨hs, not_le.mp hlt⟩⟩

/-- Witness of C3: a Buy Limit for 4 at 101 against an ask of 10 at 100 trades at 100. -/
theorem limit_price_protection_witness :
    (buyFourLimit.Side = OrderSideBuy → (⟨8, 7, 100, 4⟩ : Trade).Price ≤ buyFourLimit.Price) ∧
      (buyFourLimit.Side = OrderSideSell → buyFourLimit.Price ≤ (⟨8, 7, 100, 4⟩ : Trade).Price) :=
  limit_price_protection askTenBook askTenBookFour buyFourLimit { buyFourLimit with Filled := 4 }
    [⟨8, 7, 100, 4⟩] Match_askTen_limit rfl ⟨8, 7, 100, 4⟩ (List.mem_singleton.mpr rfl)

/-- C4 (well-formed trades): whenever `Match` returns for a taker with
filled = 0, the trade number `k` is made against the order the iterator visits
at step `k`; it carries the taker's id, that maker's id and that maker's price,
its amount is the minimum of what the taker still lacks at that instant and of
the maker's amount minus filled, and that amount is strictly positive and at
most either residual. -/
theorem trades_well_formed (ob ob1 : OrderBook) (order order1 : Order) (trades : List Trade)
    (h : Match ob order = some (ob1, order1, trades)) (hfilled : order.Filled = 0) :
    ∀ (k : Nat) (hk : k < trades.length), ∃ maker,
      (oppositeOrders ob order).get? k = some maker ∧
      trades.get ⟨k, hk⟩ =
        ⟨order.Id, maker.Id, maker.Price,
          min (order.Amount - order.Filled - ((trades.take k).map Trade.Amount).sum)
            (maker.Amount - maker.Filled)⟩ ∧
      0 < (trades.get ⟨k, hk⟩).Amount ∧
      (trades.get ⟨k, hk⟩).Amount ≤
        order.Amount - order.Filled - ((trades.take k).map Trade.Amount).sum ∧
      (trades.get ⟨k, hk⟩).Amount ≤ maker.Amount - maker.Filled := by
  intro k hk
  rcases Match_inv h with ⟨_, _, rfl⟩ | ⟨m, rest, hopp, hpos, _, hlt, _, rfl, _⟩
  · simp at hk
  · have hk0 : k = 0 := by simpa using hk
    subst hk0
    refine ⟨m, by simp [hopp], ?_, ?_, ?_, ?_⟩
    · simp [hfilled, min_eq_left hlt.le]
    · simpa using hpos
    · simp [hfilled]
    · simpa using hlt.le

/-- Witness of C4: a Sell Limit for 3 at 98 against bids at 98 and 99 trades with
the bid at 99, for min(3, 6 - 2) = 3. -/
theorem trades_well_formed_witness :
    ∃ maker, (oppositeOrders twoBidsBook sellThree).get? 0 = some maker ∧
      ([⟨13, 12, 99, 3⟩] : List Trade).get ⟨0, Nat.zero_lt_one⟩ =
        ⟨sellThree.Id, maker.Id, maker.Price,
          min (sellThree.Amount - sellThree.Filled -
              ((([⟨13, 12, 99, 3⟩] : List Trade).take 0).map Trade.Amount).sum)
            (maker.Amount - maker.Filled)⟩ ∧
      0 < (([⟨13, 12, 99, 3⟩] : List Trade).get ⟨0, Nat.zero_lt_one⟩).Amount ∧
      (([⟨13, 12, 99, 3⟩] : List Trade).get ⟨0, Nat.zero_lt_one⟩).Amount ≤
        sellThree.Amount - sellThree.Filled -
          ((([⟨13, 12, 99, 3⟩] : List Trade).take 0).map Trade.Amount).sum ∧
      (([⟨13, 12, 99, 3⟩] : List Trade).get ⟨0, Nat.zero_lt_one⟩).Amount ≤
        maker.Amount - maker.Filled :=
  trades_well_formed twoBidsBook twoBidsBookThree sellThree { sellThree with Filled := 3 }
    [⟨13, 12, 99, 3⟩] Match_twoBids rfl 0 Nat.zero_lt_one

/-- C5 (quantity conservation): whenever `Match` returns, the amounts of the
returned trades add up to the increase of the taker's filled; and the makers
are, position by position, the same orders as before, the amounts of the trades
naming an id adding up to the increase of the filled of the makers with that
id. -/
theorem quantity_conservation (ob ob1 : OrderBook) (order order1 : Order) (trades : List Trade)
    (h : Match ob order = some (ob1, order1, trades)) :
    (trades.map Trade.Amount).sum = order1.Filled - order.Filled ∧
    (oppositeOrders ob1 order).map Order.Id = (oppositeOrders ob order).map Order.Id ∧
    ∀ id : Int,
      ((trades.filter (fun t => t.MakerOrderId = id)).map Trade.Amount).sum =
        (((oppositeOrders ob1 order).filter (fun o => o.Id = id)).map Order.Filled).sum -
          (((oppositeOrders ob order).filter (fun o => o.Id = id)).map Order.Filled).sum := by
  rcases Match_inv h with ⟨rfl, rfl, rfl⟩ | ⟨m, rest, hopp, _, _, _, rfl, rfl, hopp1, _⟩
  · simp
  · refine ⟨by simp, by simp [hopp, hopp1], ?_⟩
    intro id
    rw [hopp, hopp1, sum_filter_set_zero]
    by_cases hid : m.Id = id
    · simp [List.filter_cons, hid]
    · simp [List.filter_cons, hid]

/-- Witness of C5: a Buy Market for 4 against an ask of 10 at 100. -/
theorem quantity_conservation_witness :
    (([⟨8, 7, 100, 4⟩] : List Trade).map Trade.Amount).sum =
        ({ buyFourMarket with Filled := 4 } : Order).Filled - buyFourMarket.Filled ∧
    (oppositeOrders askTenBookFour buyFourMarket).map Order.Id =
        (oppositeOrders askTenBook buyFourMarket).map Order.Id ∧
    ∀ id : Int,
      ((([⟨8, 7, 100, 4⟩] : List Trade).filter (fun t => t.MakerOrderId = id)).map
          Trade.Amount).sum =
        (((oppositeOrders askTenBookFour buyFourMarket).filter (fun o => o.Id = id)).map
            Order.Filled).sum -
          (((oppositeOrders askTenBook buyFourMarket).filter (fun o => o.Id = id)).map
            Order.Filled).sum :=
  quantity_conservation askTenBook askTenBookFour buyFourMarket { buyFourMarket with Filled := 4 }
    [⟨8, 7, 100, 4⟩] Match_askTen_market

/-- C6 as stated fails: a taker of amount 5 that enters `Match` with filled = 3
(within its bounds) against an ask with 10 open is filled by its whole amount
once more and leaves with filled = 8 > 5. -/
theorem filled_bounds_counterexample :
    (0 ≤ halfFilledTaker.Filled ∧ halfFilledTaker.Filled ≤ halfFilledTaker.Amount) ∧
    (∀ m ∈ askTenBook.bids.Values ++ askTenBook.asks.Values,
        0 ≤ m.Filled ∧ m.Filled ≤ m.Amount) ∧
    ∃ ob1 order1 trades, Match askTenBook halfFilledTaker = some (ob1, order1, trades) ∧
      order1.Amount < order1.Filled := by
  refine ⟨by norm_num [halfFilledTaker], ?_, _, _, _, Match_halfFilled, ?_⟩
  · intro m hm
    simp [askTenBook, Tree.Values] at hm
    subst hm
    norm_num
  · norm_num [halfFilledTaker]

/-- C6 amended (filled bounds): whenever `Match` returns for a taker that enters
with filled = 0 and a non-negative amount, against makers that satisfy
0 ≤ filled ≤ amount, the taker leaves with 0 ≤ filled ≤ amount, every maker is
still resting with the same id and amount and with 0 ≤ filled ≤ amount, no
filled has decreased, and the taker's own side is untouched. -/
theorem filled_bounds_preserved (ob ob1 : OrderBook) (order order1 : Order)
    (trades : List Trade) (h : Match ob order = some (ob1, order1, trades))
    (hfilled : order.Filled = 0) (hamount : 0 ≤ order.Amount)
    (hbook : ∀ m ∈ oppositeOrders ob order, 0 ≤ m.Filled ∧ m.Filled ≤ m.Amount) :
    (0 ≤ order1.Filled ∧ order1.Filled ≤ order1.Amount ∧ order.Filled ≤ order1.Filled) ∧
    List.Forall₂
      (fun m m1 => m1.Id = m.Id ∧ m1.Amount = m.Amount ∧ 0 ≤ m1.Filled ∧
        m1.Filled ≤ m1.Amount ∧ m.Filled ≤ m1.Filled)
      (oppositeOrders ob order) (oppositeOrders ob1 order) ∧
    (order.Side = OrderSideBuy → ob1.bids = ob.bids) ∧
    (order.Side = OrderSideSell → ob1.asks = ob.asks) := by
  rcases Match_inv h with ⟨rfl, rfl, rfl⟩ |
    ⟨m, rest, hopp, hpos, _, hlt, rfl, rfl, hopp1, hbids, hasks⟩
  · refine ⟨⟨by rw [hfilled], by rw [hfilled]; exact hamount, le_refl _⟩, ?_,
      fun _ => rfl, fun _ => rfl⟩
    exact forall₂_refl_of _ (fun m hm => ⟨rfl, rfl, (hbook m hm).1, (hbook m hm).2, le_refl _⟩)
  · refine ⟨⟨?_, ?_, ?_⟩, ?_, hbids, hasks⟩
    · simp only [hfilled]; linarith
    · simp only [hfilled]; linarith
    · simp only [hfilled]; linarith
    · rw [hopp, hopp1]
      rw [hopp] at hbook
      have hm := hbook m (List.mem_cons_self m rest)
      refine List.Forall₂.cons ⟨rfl, rfl, ?_, ?_, ?_⟩ ?_
      · simp only; linarith [hm.1]
      · simp only; linarith
      · simp only; linarith
      · exact forall₂_refl_of _ (fun x hx =>
          ⟨rfl, rfl, (hbook x (List.mem_cons_of_mem m hx)).1,
            (hbook x (List.mem_cons_of_mem m hx)).2, le_refl _⟩)

/-- Witness of C6 amended: a Sell Limit for 3 at 98 against bids at 98 and 99. -/
theorem filled_bounds_preserved_witness :
    (0 ≤ ({ sellThree with Filled := 3 } : Order).Filled ∧
      ({ sellThree with Filled := 3 } : Order).Filled ≤
        ({ sellThree with Filled := 3 } : Order).Amount ∧
      sellThree.Filled ≤ ({ sellThree with Filled := 3 } : Order).Filled) ∧
    List.Forall₂
      (fun m m1 => m1.Id = m.Id ∧ m1.Amount = m.Amount ∧ 0 ≤ m1.Filled ∧
        m1.Filled ≤ m1.Amount ∧ m.Filled ≤ m1.Filled)
      (oppositeOrders twoBidsBook sellThree) (oppositeOrders twoBidsBookThree sellThree) ∧
    (sellThree.Side = OrderSideBuy → twoBidsBookThree.bids = twoBidsBook.bids) ∧
    (sellThree.Side = OrderSideSell → twoBidsBookThree.asks = twoBidsBook.asks) :=
  filled_bounds_preserved twoBidsBook twoBidsBookThree sellThree { sellThree with Filled := 3 }
    [⟨13, 12, 99, 3⟩] Match_twoBids rfl (by norm_num [sellThree])
    (by
      intro m hm
      simp [oppositeOrders, twoBidsBook, sellThree, Tree.Values, OrderSideBuy,
        OrderSideSell] at hm
      rcases hm with rfl | rfl <;> norm_num)

/-- C7 (maximal matching), evaluated on scenario S4: the first of the three asks
cannot be rested with `AddOrder` (the call panics), and on a book state with the
asks 2@10, 2@11 and 10@12 the Buy Market for 5 makes `Match` panic when the ask
with id 30 is filled, instead of returning the three trades. -/
theorem market_walk_S4_panics :
    AddOrder NewOrderBook s4Ask30 = none ∧ Match s4Book s4Taker = none := by
  refine ⟨AddOrder_buy_sell _ _ (Or.inr rfl), ?_⟩
  simp [Match, matchLoop, s4Book, s4Taker, s4Ask30, s4Ask31, s4Ask32, Tree.Size, Tree.Values,
    Tree.setValue, Tree.Remove, PriceComparator, OrderSideBuy, OrderSideSell, OrderTypeLimit,
    OrderTypeMarket, OrderStatusPartial, OrderStatusInit, List.range_succ]
  norm_num

/-- C8 (cancel reports whether a removal happened), evaluated on the code:
cancelling an id that rests nowhere, on the new book, returns true. -/
theorem RemoveOrder_unknown_returns_true :
    RemoveOrder NewOrderBook 7 OrderSideBuy = some (NewOrderBook, true) := by
  simp [RemoveOrder, NewOrderBook, Tree.Remove]

/-- C9 (a cancelled order never trades again), evaluated on scenario S6: the bid
with id 20 cannot be rested with `AddOrder` (the call panics), and on a book
state in which it rests `RemoveOrder(20, Buy)` panics, so the order is never
taken out of the index. -/
theorem cancel_S6_panics :
    AddOrder NewOrderBook s6Bid = none ∧ RemoveOrder s6Book 20 OrderSideBuy = none := by
  refine ⟨AddOrder_buy_sell _ _ (Or.inl rfl), ?_⟩
  simp [RemoveOrder, s6Book, Tree.Remove, PriceComparator]

/-- C10 (adding grows the book by one), evaluated on scenario S1: `AddOrder` of
the Buy Limit with id 1 panics on the new book, and also on a book state that
already holds another bid. -/
theorem AddOrder_S1_panics :
    AddOrder NewOrderBook s1Order = none ∧ AddOrder oneBidBook s1Order = none :=
  ⟨AddOrder_buy_sell _ _ (Or.inl rfl), AddOrder_buy_sell _ _ (Or.inl rfl)⟩

/-! Engine, snapshots and ingress -/

theorem Match_of_not_pos (ob : OrderBook) (order : Order) (h : ¬ 0 < order.Amount) :
    Match ob order = some (ob, order, []) := by
  unfold Match
  split_ifs
  · rw [matchLoop_of_not_pos _ _ (by simpa using h)]
    rfl
  · rw [matchLoop_of_not_pos _ _ (by simpa using h)]
    rfl
  · rfl

theorem Match_new_book (order : Order)
    (h : order.Side = OrderSideBuy ∨ order.Side = OrderSideSell) :
    Match NewOrderBook order = some (NewOrderBook, order, []) := by
  unfold Match
  rcases h with h | h
  · simp [h, NewOrderBook, Tree.Size, matchLoop]
  · simp [h, NewOrderBook, Tree.Size, matchLoop, OrderSideBuy, OrderSideSell]

theorem Match_fullTaker :
    Match askTenBook fullTaker =
      some (⟨Tree.nil, Tree.node Tree.nil (Key.int 7)
              ⟨7, 100, 10, 5, OrderTypeLimit, OrderSideSell, OrderStatusPartial⟩ Tree.nil⟩,
            { fullTaker with Filled := 10 }, [⟨15, 7, 100, 5⟩]) := by
  simp [Match, matchLoop, askTenBook, fullTaker, Tree.Size, Tree.Values,
    Tree.setValue, OrderSideBuy, OrderSideSell, OrderTypeLimit, OrderTypeMarket,
    OrderStatusPartial, OrderStatusFilled]
  norm_num

theorem handleMarketOrder_askTen :
    handleMarketOrder askTenBook buyFourMarket =
      some (askTenBookFour, { buyFourMarket with Filled := 4, Status := OrderStatusFilled },
        [⟨8, 7, 100, 4⟩]) := by
  rw [handleMarketOrder, Match_askTen_market]
  norm_num [buyFourMarket]

/-- C11 (limit submit handling), evaluated on scenario S1: on the new book the
Buy Limit with id 1 finds nothing to match, gets status Partial, and the
`AddOrder` that should rest it panics. -/
theorem limit_submit_S1_panics :
    Match NewOrderBook s1Submitted = some (NewOrderBook, s1Submitted, []) ∧
    handleLimitOrder NewOrderBook s1Submitted = none := by
  refine ⟨Match_new_book _ (Or.inl rfl), ?_⟩
  rw [handleLimitOrder, Match_new_book _ (Or.inl rfl)]
  simp only
  rw [AddOrder_buy_sell _ _ (Or.inl rfl)]
  norm_num [s1Submitted]

/-- C12 as stated fails: a Buy Market order of amount -1 with filled = 0, which
the ingress accepts, leaves `handleMarketOrder` on the new book with status
Filled although its filled differs from its amount. -/
theorem market_submit_counterexample :
    handleMarketOrder NewOrderBook negativeMarket =
      some (NewOrderBook, { negativeMarket with Status := OrderStatusFilled }, []) ∧
    negativeMarket.Filled ≠ negativeMarket.Amount ∧
    OrderStatusFilled ≠ OrderStatusPartial := by
  refine ⟨?_, by norm_num [negativeMarket], by decide⟩
  rw [handleMarketOrder, Match_new_book _ (Or.inl rfl)]
  norm_num [negativeMarket]

/-- C12 amended (market submit handling): whenever `handleMarketOrder` returns
for an order that enters with filled = 0 and a non-negative amount, the order's
own side of the book is exactly as before (the order is not rested), and the
order's status is Filled if its filled equals its amount and Partial
otherwise. -/
theorem market_submit_handling (ob ob1 : OrderBook) (order order1 : Order)
    (trades : List Trade) (h : handleMarketOrder ob order = some (ob1, order1, trades))
    (hfilled : order.Filled = 0) (hamount : 0 ≤ order.Amount) :
    (order.Side = OrderSideBuy → ob1.bids = ob.bids) ∧
    (order.Side = OrderSideSell → ob1.asks = ob.asks) ∧
    (order1.Filled = order1.Amount → order1.Status = OrderStatusFilled) ∧
    (order1.Filled ≠ order1.Amount → order1.Status = OrderStatusPartial) := by
  unfold handleMarketOrder at h
  cases hM : Match ob order with
  | none => rw [hM] at h; simp at h
  | some res =>
    obtain ⟨ob2, order2, trades2⟩ := res
    rw [hM] at h
    simp only at h
    have hle : order2.Filled ≤ order2.Amount ∧
        (order.Side = OrderSideBuy → ob2.bids = ob.bids) ∧
        (order.Side = OrderSideSell → ob2.asks = ob.asks) := by
      rcases Match_inv hM with ⟨rfl, rfl, _⟩ | ⟨m, rest, _, _, _, _, rfl, _, _, hb, hs⟩
      · exact ⟨by rw [hfilled]; exact hamount, fun _ => rfl, fun _ => rfl⟩
      · exact ⟨by simp [hfilled], hb, hs⟩
    obtain ⟨hle, hb, hs⟩ := hle
    split_ifs at h with hlt
    · simp only [Option.some.injEq, Prod.mk.injEq] at h
      obtain ⟨rfl, rfl, _⟩ := h
      exact ⟨hb, hs, fun heq => absurd heq (ne_of_lt hlt), fun _ => rfl⟩
    · simp only [Option.some.injEq, Prod.mk.injEq] at h
      obtain ⟨rfl, rfl, _⟩ := h
      exact ⟨hb, hs, fun _ => rfl,
        fun hne => absurd (le_antisymm hle (not_lt.mp hlt)) hne⟩

/-- Witness of C12 amended: a Buy Market for 4 against an ask of 10 at 100 is
filled, gets status Filled, and the bids stay as they were. -/
theorem market_submit_handling_witness :
    (buyFourMarket.Side = OrderSideBuy → askTenBookFour.bids = askTenBook.bids) ∧
    (buyFourMarket.Side = OrderSideSell → askTenBookFour.asks = askTenBook.asks) ∧
    (({ buyFourMarket with Filled := 4, Status := OrderStatusFilled } : Order).Filled =
        ({ buyFourMarket with Filled := 4, Status := OrderStatusFilled } : Order).Amount →
      ({ buyFourMarket with Filled := 4, Status := OrderStatusFilled } : Order).Status =
        OrderStatusFilled) ∧
    (({ buyFourMarket with Filled := 4, Status := OrderStatusFilled } : Order).Filled ≠
        ({ buyFourMarket with Filled := 4, Status := OrderStatusFilled } : Order).Amount →
      ({ buyFourMarket with Filled := 4, Status := OrderStatusFilled } : Order).Status =
        OrderStatusPartial) :=
  market_submit_handling askTenBook askTenBookFour buyFourMarket
    { buyFourMarket with Filled := 4, Status := OrderStatusFilled } [⟨8, 7, 100, 4⟩]
    handleMarketOrder_askTen rfl (by norm_num [buyFourMarket])

/-- C13 (snapshots), evaluated on the code: on a book state in which an order
rests under its id, `Bids` and `Asks` panic on the assertion `key.(*dao.Order)`,
before and after a `Match` that traded. -/
theorem snapshots_panic :
    Bids s6Book = none ∧ Asks askTenBook = none ∧ Asks askTenBookFour = none := by
  refine ⟨?_, ?_, ?_⟩ <;>
    simp [Bids, Asks, s6Book, askTenBook, askTenBookFour, Tree.Keys, ordersOfKeys]

/-- C18 as stated fails: a taker of amount 5 whose filled is 5 already is
matched for 5 more against an ask with 10 open. -/
theorem Match_residual_counterexample :
    fullTaker.Filled = fullTaker.Amount ∧
    ∃ ob1 order1 trade, Match askTenBook fullTaker = some (ob1, order1, [trade]) ∧
      ob1 ≠ askTenBook ∧ order1.Filled = 10 ∧
      fullTaker.Amount - fullTaker.Filled < trade.Amount := by
  refine ⟨rfl, _, _, _, Match_fullTaker, ?_, ?_, ?_⟩
  · simp [askTenBook]
  · rfl
  · norm_num [fullTaker]

/-- C18 amended (`Match` starts from the taker's amount): for a taker that
enters with filled = 0 and a non-negative amount, so that its amount is its
residual, a taker whose filled equals its amount makes `Match` return no trade
and change neither the taker nor the book, and whenever `Match` returns, the
amounts of its trades add up to at most amount minus filled at entry. -/
theorem Match_starts_from_amount (ob : OrderBook) (order : Order)
    (hfilled : order.Filled = 0) (hamount : 0 ≤ order.Amount) :
    (order.Filled = order.Amount → Match ob order = some (ob, order, [])) ∧
    ∀ ob1 order1 trades, Match ob order = some (ob1, order1, trades) →
      (trades.map Trade.Amount).sum ≤ order.Amount - order.Filled := by
  constructor
  · intro heq
    apply Match_of_not_pos
    rw [← heq, hfilled]
    exact lt_irrefl 0
  · intro ob1 order1 trades h
    rcases Match_inv h with ⟨_, _, rfl⟩ | ⟨m, rest, _, _, _, _, _, rfl, _⟩
    · simp [hfilled, hamount]
    · simp [hfilled]

/-- Witness of C18 amended: a Buy Market for 4 with filled = 0 against an ask
of 10 at 100. -/
theorem Match_starts_from_amount_witness :
    (buyFourMarket.Filled = buyFourMarket.Amount →
      Match askTenBook buyFourMarket = some (askTenBook, buyFourMarket, [])) ∧
    ∀ ob1 order1 trades, Match askTenBook buyFourMarket = some (ob1, order1, trades) →
      (trades.map Trade.Amount).sum ≤ buyFourMarket.Amount - buyFourMarket.Filled :=
  Match_starts_from_amount askTenBook buyFourMarket rfl (by norm_num [buyFourMarket])

/-- C19 (filled makers leave the book), evaluated on scenario S2: on a book
state in which the bid 5 at 100 rests, the Sell Limit 5 at 100 fills it
completely and `Match` panics in the `Remove` that should take it out of the
index; so does `handleLimitOrder`. -/
theorem exact_cross_S2_panics :
    Match s2Book s2Taker = none ∧ handleLimitOrder s2Book s2Taker = none := by
  have h : Match s2Book s2Taker = none := by
    simp [Match, matchLoop, s2Book, s2Taker, Tree.Size, Tree.Values,
      Tree.setValue, Tree.Remove, PriceComparator, OrderSideBuy, OrderSideSell, OrderTypeLimit,
      OrderStatusPartial, OrderStatusInit]
  exact ⟨h, by rw [handleLimitOrder, h]⟩

/-- C20 (`Match` touches only the makers it trades with), evaluated on scenario
S3: on a book state with the asks 3 at 101 and 4 at 102 the Buy Limit 5 at 101
fills the ask with id 10 completely and `Match` panics in the `Remove` that
should take it out, instead of returning the trade {20,10,101,3}. -/
theorem partial_cross_S3_panics :
    Match s3Book s3Taker = none ∧ handleLimitOrder s3Book s3Taker = none := by
  have h : Match s3Book s3Taker = none := by
    simp [Match, matchLoop, s3Book, s3Taker, Tree.Size, Tree.Values,
      Tree.setValue, Tree.Remove, PriceComparator, OrderSideBuy, OrderSideSell, OrderTypeLimit,
      OrderStatusPartial, OrderStatusInit]
    norm_num
  exact ⟨h, by rw [handleLimitOrder, h]⟩

/-! Registry -/

theorem lookup_cons_of_ne {β : Type} (other symbol : String) (b : β) (l : List (String × β))
    (h : other ≠ symbol) : ((symbol, b) :: l).lookup other = l.lookup other := by
  rw [List.lookup_cons]
  have : (other == symbol) = false := by simpa using h
  rw [this]

theorem not_mem_keys_of_lookup_none {β : Type} {symbol : String} {l : List (String × β)}
    (h : l.lookup symbol = none) : symbol ∉ l.map Prod.fst := by
  intro hmem
  obtain ⟨p, hp, hfst⟩ := List.mem_map.mp hmem
  have := (List.lookup_eq_none_iff.mp h) p hp
  simp [hfst] at this

theorem GetMatchingEngine_eq (reg : Registry) (symbol : String) :
    GetMatchingEngine reg symbol = NewMatchingEngine reg symbol := by
  unfold GetMatchingEngine NewMatchingEngine
  cases reg.matchingEngines.lookup symbol <;> rfl

theorem Registry.lookup_NewOrderBook (reg : Registry) (symbol : String) :
    ((reg.NewOrderBook symbol).orderBooks.lookup symbol).isSome = true := by
  unfold Registry.NewOrderBook
  cases h : reg.orderBooks.lookup symbol with
  | none => simp
  | some b => simp [h]

/-- C14 (registry lookup is lazy and stable): `GetMatchingEngine` leaves the
requested symbol mapped to the engine it returns; if the symbol had no engine,
the engine is a new running one and the symbol has an order book; if it had
one, that engine is returned and the registry is as before; asking again
returns the same engine and changes nothing; the engines of the other symbols
are as before; and a registry with one entry per symbol keeps one entry per
symbol. -/
theorem registry_lookup_stable (reg : Registry) (symbol : String)
    (hnodup : (reg.matchingEngines.map Prod.fst).Nodup) :
    (GetMatchingEngine reg symbol).1.matchingEngines.lookup symbol =
      some (GetMatchingEngine reg symbol).2 ∧
    (reg.matchingEngines.lookup symbol = none →
      (GetMatchingEngine reg symbol).2 = ⟨symbol, symbol, false, true⟩ ∧
      ((GetMatchingEngine reg symbol).1.orderBooks.lookup symbol).isSome = true) ∧
    (∀ engine, reg.matchingEngines.lookup symbol = some engine →
      GetMatchingEngine reg symbol = (reg, engine)) ∧
    GetMatchingEngine (GetMatchingEngine reg symbol).1 symbol = GetMatchingEngine reg symbol ∧
    (∀ other, other ≠ symbol →
      (GetMatchingEngine reg symbol).1.matchingEngines.lookup other =
        reg.matchingEngines.lookup other) ∧
    ((GetMatchingEngine reg symbol).1.matchingEngines.map Prod.fst).Nodup := by
  cases h : reg.matchingEngines.lookup symbol with
  | some engine =>
    have hget : GetMatchingEngine reg symbol = (reg, engine) := by
      simp [GetMatchingEngine, h]
    rw [hget]
    refine ⟨h, fun hn => by simp at hn, fun e he => ?_, hget, fun _ _ => rfl, hnodup⟩
    rw [Option.some.inj he]
  | none =>
    have hget : GetMatchingEngine reg symbol =
        ({ reg.NewOrderBook symbol with
            matchingEngines := (symbol, ⟨symbol, symbol, false, true⟩) :: reg.matchingEngines },
         ⟨symbol, symbol, false, true⟩) := by
      simp [GetMatchingEngine, NewMatchingEngine, h]
    rw [hget]
    refine ⟨by simp, fun _ => ⟨rfl, Registry.lookup_NewOrderBook reg symbol⟩,
      fun e he => by simp at he, ?_, fun other hne => lookup_cons_of_ne _ _ _ _ hne, ?_⟩
    · simp [GetMatchingEngine]
    · simp only [List.map_cons, List.nodup_cons]
      exact ⟨not_mem_keys_of_lookup_none h, hnodup⟩

/-- Witness of C14: the first request for a symbol on the empty registry. -/
theorem registry_lookup_stable_witness :
    (GetMatchingEngine emptyRegistry "BTCUSDT").1.matchingEngines.lookup "BTCUSDT" =
      some (GetMatchingEngine emptyRegistry "BTCUSDT").2 ∧
    (emptyRegistry.matchingEngines.lookup "BTCUSDT" = none →
      (GetMatchingEngine emptyRegistry "BTCUSDT").2 = ⟨"BTCUSDT", "BTCUSDT", false, true⟩ ∧
      ((GetMatchingEngine emptyRegistry "BTCUSDT").1.orderBooks.lookup "BTCUSDT").isSome = true) ∧
    (∀ engine, emptyRegistry.matchingEngines.lookup "BTCUSDT" = some engine →
      GetMatchingEngine emptyRegistry "BTCUSDT" = (emptyRegistry, engine)) ∧
    GetMatchingEngine (GetMatchingEngine emptyRegistry "BTCUSDT").1 "BTCUSDT" =
      GetMatchingEngine emptyRegistry "BTCUSDT" ∧
    (∀ other, other ≠ "BTCUSDT" →
      (GetMatchingEngine emptyRegistry "BTCUSDT").1.matchingEngines.lookup other =
        emptyRegistry.matchingEngines.lookup other) ∧
    ((GetMatchingEngine emptyRegistry "BTCUSDT").1.matchingEngines.map Prod.fst).Nodup :=
  registry_lookup_stable emptyRegistry "BTCUSDT" (by simp [emptyRegistry])

theorem stopAll_running :
    ∀ l : List (String × MatchingEngine), (∀ p ∈ l, p.2.stopChanClosed = false) →
      stopAll l =
        some (l.map (fun p => (p.1, { p.2 with stopChanClosed := true, workerRunning := false })))
  | [], _ => rfl
  | (symbol, engine) :: rest, h => by
    have he : engine.stopChanClosed = false := h (symbol, engine) (List.mem_cons_self _ _)
    have hr := stopAll_running rest (fun p hp => h p (List.mem_cons_of_mem _ hp))
    simp [stopAll, MatchingEngine.Stop, he, hr]

theorem stopAll_stopped (symbol : String) (engine : MatchingEngine)
    (rest : List (String × MatchingEngine)) (h : engine.stopChanClosed = true) :
    stopAll ((symbol, engine) :: rest) = none := by
  simp [stopAll, MatchingEngine.Stop, h]

/-- C15 as stated fails: on a registry with one running engine the first
`MatchingEngineClose` stops the engine and the second one panics on
`close(e.stopChan)`. -/
theorem double_close_counterexample :
    MatchingEngineClose oneEngineRegistry = some oneEngineStopped ∧
    MatchingEngineClose oneEngineStopped = none := by
  constructor <;>
    simp [MatchingEngineClose, stopAll, MatchingEngine.Stop, oneEngineRegistry, oneEngineStopped]

/-- C15 amended (shutdown): on a registry whose engines have not been stopped,
`MatchingEngineClose` completes and leaves every engine, under the same symbol,
with its stop channel closed and its worker returned; a second call completes,
and then changes nothing, exactly when the registry holds no engine. -/
theorem close_once (reg : Registry)
    (hrunning : ∀ p ∈ reg.matchingEngines, p.2.stopChanClosed = false) :
    ∃ reg1, MatchingEngineClose reg = some reg1 ∧
      reg1.orderBooks = reg.orderBooks ∧
      reg1.matchingEngines.map Prod.fst = reg.matchingEngines.map Prod.fst ∧
      (∀ p ∈ reg1.matchingEngines, p.2.stopChanClosed = true ∧ p.2.workerRunning = false) ∧
      (reg.matchingEngines = [] → MatchingEngineClose reg1 = some reg1) ∧
      (reg.matchingEngines ≠ [] → MatchingEngineClose reg1 = none) := by
  refine ⟨⟨reg.orderBooks, reg.matchingEngines.map
      (fun p => (p.1, { p.2 with stopChanClosed := true, workerRunning := false }))⟩,
    by rw [MatchingEngineClose, stopAll_running _ hrunning]; rfl, rfl, ?_, ?_, ?_, ?_⟩
  · simp [List.map_map, Function.comp_def]
  · intro p hp
    simp only [List.mem_map] at hp
    obtain ⟨q, _, rfl⟩ := hp
    exact ⟨rfl, rfl⟩
  · intro hnil
    simp [MatchingEngineClose, hnil, stopAll]
  · intro hne
    cases hl : reg.matchingEngines with
    | nil => exact absurd hl hne
    | cons p rest =>
      obtain ⟨symbol, engine⟩ := p
      simp [MatchingEngineClose, stopAll, MatchingEngine.Stop]

/-- Witness of C15 amended: the registry with one running engine. -/
theorem close_once_witness :
    ∃ reg1, MatchingEngineClose oneEngineRegistry = some reg1 ∧
      reg1.orderBooks = oneEngineRegistry.orderBooks ∧
      reg1.matchingEngines.map Prod.fst = oneEngineRegistry.matchingEngines.map Prod.fst ∧
      (∀ p ∈ reg1.matchingEngines, p.2.stopChanClosed = true ∧ p.2.workerRunning = false) ∧
      (oneEngineRegistry.matchingEngines = [] → MatchingEngineClose reg1 = some reg1) ∧
      (oneEngineRegistry.matchingEngines ≠ [] → MatchingEngineClose reg1 = none) :=
  close_once oneEngineRegistry (by simp [oneEngineRegistry])

/-! Ingress -/

/-- C16 (submitted orders start in Init), evaluated on the code: for a request
within the schema the order that is written and handed to the engine has
filled = 0 and status 0, the zero value, which is not `OrderStatusInit`. -/
theorem submitted_status_is_zero :
    SubmitOrder createWithIdOne validReq =
      ⟨200, some ⟨1, 100, 5, 0, 1, 1, 0⟩, some ("BTCUSDT", ⟨1, 100, 5, 0, 1, 1, 0⟩)⟩ ∧
    (⟨1, 100, 5, 0, 1, 1, 0⟩ : Order).Status ≠ OrderStatusInit := by
  constructor
  · simp [SubmitOrder, ShouldBind, validReq, createWithIdOne]
  · decide

/-- C17 as stated fails: a request with amount 0 is answered 200, written to the
order table and handed to the engine. -/
theorem zero_amount_accepted :
    zeroAmountReq.Amount ≤ 0 ∧
    SubmitOrder createWithIdOne zeroAmountReq =
      ⟨200, some ⟨1, 100, 0, 0, 1, 1, 0⟩, some ("BTCUSDT", ⟨1, 100, 0, 0, 1, 1, 0⟩)⟩ := by
  constructor
  · norm_num [zeroAmountReq]
  · simp [SubmitOrder, ShouldBind, zeroAmountReq, createWithIdOne]

/-- C17 amended (ingress validation): a request whose user_id is 0 or whose
symbol is empty is answered 400, nothing is written and nothing is handed to
the engine. -/
theorem ingress_validation (createOrder : Order → Option Int) (req : SubmitOrderReq)
    (h : req.UserId = 0 ∨ req.Symbol = "") :
    SubmitOrder createOrder req = ⟨400, none, none⟩ := by
  have hb : ShouldBind req = false := by
    unfold ShouldBind
    rcases h with h | h <;> simp [h]
  simp [SubmitOrder, hb]

/-- Witness of C17 amended: a request with user_id 0. -/
theorem ingress_validation_witness :
    SubmitOrder createWithIdOne noUserReq = ⟨400, none, none⟩ :=
  ingress_validation createWithIdOne noUserReq (Or.inl rfl)

/-! The crossing condition -/

theorem Match_prices {ob ob1 : OrderBook} {order order1 : Order} {trades : List Trade}
    (h : Match ob order = some (ob1, order1, trades)) :
    ob1.bids.Values.map Order.Price = ob.bids.Values.map Order.Price ∧
    ob1.asks.Values.map Order.Price = ob.asks.Values.map Order.Price := by
  rcases Match_inv h with ⟨rfl, _, _⟩ | ⟨m, rest, hopp, _, _, _, _, _, hopp1, hb, hs⟩
  · exact ⟨rfl, rfl⟩
  · unfold oppositeOrders at hopp hopp1
    by_cases hbuy : order.Side = OrderSideBuy
    · rw [if_pos hbuy] at hopp hopp1
      refine ⟨by rw [hb hbuy], ?_⟩
      rw [hopp, hopp1]
      rfl
    · rw [if_neg hbuy] at hopp hopp1
      by_cases hsell : order.Side = OrderSideSell
      · rw [if_pos hsell] at hopp hopp1
        refine ⟨?_, by rw [hs hsell]⟩
        have h1 : (ob1.bids.Values.map Order.Price).reverse =
            (ob.bids.Values.map Order.Price).reverse := by
          rw [← List.map_reverse, ← List.map_reverse, hopp, hopp1]
          rfl
        exact List.reverse_injective h1
      · rw [if_neg hsell] at hopp
        simp at hopp

theorem uncrossed_of_prices {ob ob1 : OrderBook}
    (hb : ob1.bids.Values.map Order.Price = ob.bids.Values.map Order.Price)
    (ha : ob1.asks.Values.map Order.Price = ob.asks.Values.map Order.Price)
    (h : uncrossed ob) : uncrossed ob1 := by
  intro bid hbid ask hask
  have h1 : bid.Price ∈ ob.bids.Values.map Order.Price := by
    rw [← hb]; exact List.mem_map_of_mem _ hbid
  have h2 : ask.Price ∈ ob.asks.Values.map Order.Price := by
    rw [← ha]; exact List.mem_map_of_mem _ hask
  obtain ⟨b0, hb0, hpb⟩ := List.mem_map.mp h1
  obtain ⟨a0, ha0, hpa⟩ := List.mem_map.mp h2
  rw [← hpb, ← hpa]
  exact h b0 hb0 a0 ha0

theorem AddOrder_returns {ob ob1 : OrderBook} {order : Order}
    (h : AddOrder ob order = some ob1) : ob1 = ob := by
  by_cases hside : order.Side = OrderSideBuy ∨ order.Side = OrderSideSell
  · rw [AddOrder_buy_sell ob order hside] at h
    simp at h
  · push_neg at hside
    unfold AddOrder at h
    rw [if_neg hside.1, if_neg hside.2] at h
    exact (Option.some.inj h).symm

theorem handleLimitOrder_spread :
    handleLimitOrder spreadBook buyFourLimit =
      some (spreadBookFour, { buyFourLimit with Filled := 4, Status := OrderStatusFilled },
        [⟨8, 7, 100, 4⟩]) := by
  have h : Match spreadBook buyFourLimit =
      some (spreadBookFour, { buyFourLimit with Filled := 4 }, [⟨8, 7, 100, 4⟩]) := by
    simp [Match, matchLoop, spreadBook, spreadBookFour, buyFourLimit, Tree.Size, Tree.Values,
      Tree.setValue, OrderSideBuy, OrderSideSell, OrderTypeLimit, OrderStatusPartial,
      OrderStatusInit]
    norm_num
  rw [handleLimitOrder, h]
  norm_num [buyFourLimit]

theorem uncrossed_spreadBook : uncrossed spreadBook := by
  intro bid hbid ask hask
  simp [spreadBook, Tree.Values] at hbid hask
  subst hbid
  subst hask
  norm_num

/-- A call of `handleLimitOrder`, `handleMarketOrder` or `RemoveOrder` that
returns has rested and removed nothing, so it leaves an uncrossed book
uncrossed. -/
theorem uncrossed_of_returns (ob : OrderBook) (h : uncrossed ob) :
    (∀ order ob1 order1 trades,
      handleLimitOrder ob order = some (ob1, order1, trades) → uncrossed ob1) ∧
    (∀ order ob1 order1 trades,
      handleMarketOrder ob order = some (ob1, order1, trades) → uncrossed ob1) ∧
    (∀ orderId side ob1 r, RemoveOrder ob orderId side = some (ob1, r) → uncrossed ob1) := by
  refine ⟨?_, ?_, ?_⟩
  · intro order ob1 order1 trades hret
    unfold handleLimitOrder at hret
    cases hM : Match ob order with
    | none => rw [hM] at hret; simp at hret
    | some res =>
      obtain ⟨ob2, order2, trades2⟩ := res
      rw [hM] at hret
      simp only at hret
      have h2 : uncrossed ob2 := uncrossed_of_prices (Match_prices hM).1 (Match_prices hM).2 h
      split_ifs at hret
      · cases hadd : AddOrder ob2 { order2 with Status := OrderStatusPartial } with
        | none => rw [hadd] at hret; simp at hret
        | some ob3 =>
          rw [hadd] at hret
          simp only [Option.map_some', Option.some.injEq, Prod.mk.injEq] at hret
          rw [← hret.1, AddOrder_returns hadd]
          exact h2
      · simp only [Option.some.injEq, Prod.mk.injEq] at hret
        rw [← hret.1]
        exact h2
  · intro order ob1 order1 trades hret
    unfold handleMarketOrder at hret
    cases hM : Match ob order with
    | none => rw [hM] at hret; simp at hret
    | some res =>
      obtain ⟨ob2, order2, trades2⟩ := res
      rw [hM] at hret
      simp only at hret
      have h2 : uncrossed ob2 := uncrossed_of_prices (Match_prices hM).1 (Match_prices hM).2 h
      split_ifs at hret <;>
        · simp only [Option.some.injEq, Prod.mk.injEq] at hret
          rw [← hret.1]
          exact h2
  · intro orderId side ob1 r hret
    rw [(RemoveOrder_returns hret).2]
    exact h

/-- A Buy Limit for 4 at 101 on a book with a bid at 99 and an ask of 10 at 100
is filled at 100, is not rested, and the book stays uncrossed. -/
theorem uncrossed_of_returns_example :
    uncrossed spreadBook ∧
    handleLimitOrder spreadBook buyFourLimit =
      some (spreadBookFour, { buyFourLimit with Filled := 4, Status := OrderStatusFilled },
        [⟨8, 7, 100, 4⟩]) ∧
    uncrossed spreadBookFour :=
  ⟨uncrossed_spreadBook, handleLimitOrder_spread,
    (uncrossed_of_returns spreadBook uncrossed_spreadBook).1 buyFourLimit spreadBookFour
      { buyFourLimit with Filled := 4, Status := OrderStatusFilled } [⟨8, 7, 100, 4⟩]
      handleLimitOrder_spread⟩

theorem uncrossed_NewOrderBook : uncrossed NewOrderBook := by
  intro bid hbid
  simp [NewOrderBook, Tree.Values] at hbid

/-- C21 (the book never becomes crossed), evaluated on the code: on uncrossed
books whose resting orders have filled below amount, `handleLimitOrder` does not
get through `Match` followed by `AddOrder` of the residual.  On the new book the
Buy Limit of scenario S1 is not matched and the `AddOrder` of its residual
panics; on a book state with a bid at 99 and an ask at 100 a Buy Limit for 2 at
99 stops at the price guard and the `AddOrder` of its residual panics, a Buy
Limit for 12 at 100 fills the ask and `Match` panics before any residual is
rested, and `RemoveOrder` of the resting bid panics. -/
theorem residual_never_rests :
    (uncrossed NewOrderBook ∧ handleLimitOrder NewOrderBook s1Submitted = none) ∧
    (uncrossed spreadBook ∧
      (∀ m ∈ spreadBook.bids.Values ++ spreadBook.asks.Values, m.Filled < m.Amount) ∧
      Match spreadBook buyTwoBelow = some (spreadBook, buyTwoBelow, []) ∧
      handleLimitOrder spreadBook buyTwoBelow = none ∧
      handleLimitOrder spreadBook buyTwelveAcross = none ∧
      RemoveOrder spreadBook 9 OrderSideBuy = none) := by
  have hS1 : handleLimitOrder NewOrderBook s1Submitted = none := by
    rw [handleLimitOrder, Match_new_book _ (Or.inl rfl)]
    simp only
    rw [AddOrder_buy_sell _ _ (Or.inl rfl)]
    norm_num [s1Submitted]
  have hM : Match spreadBook buyTwoBelow = some (spreadBook, buyTwoBelow, []) := by
    simp [Match, matchLoop, spreadBook, buyTwoBelow, Tree.Size, Tree.Values,
      OrderSideBuy, OrderSideSell, OrderTypeLimit, OrderStatusPartial, OrderStatusInit]
    norm_num
  have hM2 : Match spreadBook buyTwelveAcross = none := by
    simp [Match, matchLoop, spreadBook, buyTwelveAcross, Tree.Size, Tree.Values,
      Tree.setValue, Tree.Remove, PriceComparator, OrderSideBuy, OrderSideSell,
      OrderTypeLimit, OrderStatusPartial, OrderStatusInit]
    norm_num
  refine ⟨⟨uncrossed_NewOrderBook, hS1⟩, uncrossed_spreadBook, ?_, hM, ?_, ?_, ?_⟩
  · intro m hm
    simp [spreadBook, Tree.Values] at hm
    rcases hm with rfl | rfl <;> norm_num
  · rw [handleLimitOrder, hM]
    simp only
    rw [AddOrder_buy_sell _ _ (Or.inl rfl)]
    norm_num [buyTwoBelow]
  · rw [handleLimitOrder, hM2]
  · simp [RemoveOrder, spreadBook, Tree.Remove, PriceComparator]

end Orderbook
